import Mathlib

/-!
Shallow embedding of the core of the OpenFst weighted finite-state
transducer library: arcs, automata, symbol tables, the delayed
composition engine (compose.h), inversion (invert.h) and the
connect/trim pass (connect.h), together with theorems checking the
natural-language specification against this embedding.

Machine integers (int64, ssize_t) are modelled as Int; state ids as
Nat; weights as an arbitrary type with the semiring operations passed
explicitly.  Files of the repository that are not present under src/
(matcher.h, compose-filter.h, cache.h, dfs-visit.h, mutable-fst.h and
the symbol-table .cc) are modelled from the specification; each such
definition carries a doc comment saying so.
-/

namespace OpenFst

/-- Semiring operations consumed by the core (spec section 2 item 1);
the concrete arithmetic of specific semirings is an external collaborator. -/
structure WeightOps (W : Type) where
  zero : W
  one : W
  times : W → W → W

/-- An arc: input label, output label, weight, destination state
(fst.h Arc template contract).  Labels are Int so that the sentinel
kNoLabel = -1 is representable. -/
structure Arc (W : Type) where
  ilabel : Int
  olabel : Int
  weight : W
  nextstate : Nat
deriving DecidableEq, Repr

/-- Sentinel label "unset" (kNoLabel in fst-decl). -/
def kNoLabel : Int := -1

/-- Modelled from the spec: the matcher priority constant kRequirePriority
of matcher.h (absent from src); a distinguished value that cannot be a
real priority. -/
def kRequirePriority : Int := -1

/-- Sentinel key returned by symbol lookup (SymbolTable::kNoSymbol). -/
def kNoSymbol : Int := -1

/-- State of SymbolTableImpl (symbol-table header): the dense symbol list,
the index-to-key vector for keys at or above the dense key limit, the
overflow key-to-index map, and the cached labeled checksum.  The checksum
computation itself lives in the absent .cc and is carried as data. -/
structure SymbolTableImpl where
  name : String
  availableKey : Int
  denseKeyLimit : Int
  symbols : List String
  idxKey : List Int
  keyMap : List (Int × Int)
  labeledCheckSum : String
deriving DecidableEq

/-- Lookup in the std::map key_map_ (keys are unique in a std::map;
modelled as association-list search). -/
def keyMapFind (m : List (Int × Int)) (k : Int) : Option Int :=
  (m.find? (fun p => p.1 == k)).map (fun p => p.2)

/-- SymbolTableImpl::Find(int64 key): the string associated with the key,
or the empty string when the key resolves to no valid symbol index.
Vector indexing is guarded by the source's own bounds check, so the
getD default is never exposed. -/
def SymbolTableImpl.FindKey (t : SymbolTableImpl) (key : Int) : String :=
  let idxOpt : Option Int :=
    if key < 0 ∨ key ≥ t.denseKeyLimit then keyMapFind t.keyMap key
    else some key
  match idxOpt with
  | none => ""
  | some idx =>
      if idx < 0 ∨ idx ≥ (t.symbols.length : Int) then ""
      else t.symbols.getD idx.toNat ""

/-- Modelled from the spec: internal::DenseSymbolMap::Find (its body is in
the absent .cc).  Looks the symbol up in the dense symbol list and returns
its index, or -1 when the symbol is absent. -/
def denseSymbolMapFind (symbols : List String) (sym : String) : Int :=
  match symbols.findIdx? (fun s => s = sym) with
  | none => -1
  | some i => (i : Int)

/-- SymbolTableImpl::Find(string symbol): the key associated with the
symbol, or kNoSymbol when absent.  Out-of-range idx_key_ access does not
occur for -1 results; the getD default stands in for the C++ vector
indexing otherwise. -/
def SymbolTableImpl.FindSymbol (t : SymbolTableImpl) (sym : String) : Int :=
  let idx := denseSymbolMapFind t.symbols sym
  if idx = -1 ∨ idx < t.denseKeyLimit then idx
  else t.idxKey.getD (idx - t.denseKeyLimit).toNat (-1)

/-- CompatSymbols: true when the two symbol tables have equal labeled
checksums; a null table on either side is always compatible; the global
flag fst_compat_symbols can disable the check entirely. -/
def CompatSymbols (fstCompatSymbols : Bool) (syms1 syms2 : Option SymbolTableImpl) : Bool :=
  if !fstCompatSymbols then true
  else
    match syms1, syms2 with
    | some a, some b => if a.labeledCheckSum ≠ b.labeledCheckSum then false else true
    | _, _ => true

/-- Whether ComposeFstImplBase::InitBase sets the error property: it
checks CompatSymbols(fst2.InputSymbols(), fst1.OutputSymbols()). -/
def InitBaseSymbolError (fstCompatSymbols : Bool)
    (fst1OutputSymbols fst2InputSymbols : Option SymbolTableImpl) : Bool :=
  !CompatSymbols fstCompatSymbols fst2InputSymbols fst1OutputSymbols

/-- An expanded automaton (the query interface of fst.h realized by a
vector-style store): optional start state, per-state final weight and
ordered arc list, optional symbol tables. -/
structure Fst (W : Type) where
  start : Option Nat
  finals : List W
  arcs : List (List (Arc W))
  isyms : Option SymbolTableImpl
  osyms : Option SymbolTableImpl

/-- InvertMapper: exchanges the input and output label of one arc. -/
def InvertMapper (a : Arc W) : Arc W :=
  ⟨a.olabel, a.ilabel, a.weight, a.nextstate⟩

/-- Invert (invert.h): maps every arc through InvertMapper and swaps the
input and output symbol tables. -/
def Invert (f : Fst W) : Fst W :=
  { f with
    arcs := f.arcs.map (fun l => l.map InvertMapper)
    isyms := f.osyms
    osyms := f.isyms }

/-- Modelled from the spec: the exact kUnweighted property test lives in
the absent test-properties.h; an automaton is unweighted when every arc
weight and every final weight is the semiring one or zero. -/
def IsUnweighted [DecidableEq W] (wo : WeightOps W) (f : Fst W) : Bool :=
  f.arcs.all (fun l => l.all (fun a => a.weight = wo.one ∨ a.weight = wo.zero)) &&
  f.finals.all (fun w => w = wo.one ∨ w = wo.zero)

/-- Whether ComposeFst::CreateBase2 sets the error property for the weight
semiring: only when times is not commutative and neither operand is
unweighted. -/
def CreateBase2WeightError [DecidableEq W] (wo : WeightOps W)
    (commutative : Bool) (fst1 fst2 : Fst W) : Bool :=
  if !commutative then
    if !(IsUnweighted wo fst1) && !(IsUnweighted wo fst2) then true else false
  else false

/-- Modelled from the spec: the matcher interface of matcher.h (absent from
src) as consumed by the composition engine: Find positioned at a state
yields the matching arcs in iteration order, Priority is the per-state
hint, and Final delegates to the bound automaton's final weight. -/
structure Matcher (W : Type) where
  find : Nat → Int → List (Arc W)
  priority : Nat → Int
  final : Nat → W

/-- Modelled from the spec: the composition-filter interface of
compose-filter.h (absent from src), positioned on a composition tuple:
FilterArc may rewrite the two arcs and returns the successor filter state
or the distinguished no-state; FilterFinal may rewrite the pair of final
weights. -/
structure ComposeFilter (W FS : Type) where
  start : FS
  noState : FS
  filterArc : Nat → Nat → FS → Arc W → Arc W → Arc W × Arc W × FS
  filterFinal : Nat → Nat → FS → W → W → W × W

/-- The match-type resolved by SetMatchType for the two matchers. -/
inductive ComposeMatchType
  | input
  | output
  | both
deriving DecidableEq, Repr

/-- A composition instance: the two operands, their matchers, the filter
and the resolved match type (the fields of ComposeFstImpl). -/
structure ComposeCfg (W FS : Type) where
  wo : WeightOps W
  fst1 : Fst W
  fst2 : Fst W
  matcher1 : Matcher W
  matcher2 : Matcher W
  filt : ComposeFilter W FS
  matchType : ComposeMatchType

/-- The composition state table: tuples (s1, s2, filter state) interned in
insertion order; the dense id of a tuple is its list index. -/
structure StateTable (FS : Type) where
  tuples : List (Nat × Nat × FS)
deriving DecidableEq

/-- StateTable::FindState (find_or_insert): the id of the tuple, interning
it if new, together with the updated table. -/
def FindState [DecidableEq FS] (t : StateTable FS) (tup : Nat × Nat × FS) :
    StateTable FS × Nat :=
  match t.tuples.findIdx? (fun u => u = tup) with
  | some i => (t, i)
  | none => (⟨t.tuples ++ [tup]⟩, t.tuples.length)

/-- ComposeFstImpl::MatchInput: decides per composition state whether to
match on the input side (true) or the output side (false); the second
component records whether the double-require error was raised. -/
def MatchInput (cfg : ComposeCfg W FS) (s1 s2 : Nat) : Bool × Bool :=
  match cfg.matchType with
  | .input => (true, false)
  | .output => (false, false)
  | .both =>
      let priority1 := cfg.matcher1.priority s1
      let priority2 := cfg.matcher2.priority s2
      if priority1 = kRequirePriority ∧ priority2 = kRequirePriority then (true, true)
      else if priority1 = kRequirePriority then (false, false)
      else if priority2 = kRequirePriority then (true, false)
      else (decide (priority1 ≤ priority2), false)

/-- ComposeFstImpl::AddArc: interns the successor tuple and appends the
composition arc ⟨arc1.ilabel, arc2.olabel, Times(w1, w2), id⟩. -/
def AddArc [DecidableEq FS] (wo : WeightOps W)
    (acc : List (Arc W) × StateTable FS) (arc1 arc2 : Arc W) (f : FS) :
    List (Arc W) × StateTable FS :=
  let r := FindState acc.2 (arc1.nextstate, arc2.nextstate, f)
  (acc.1 ++ [⟨arc1.ilabel, arc2.olabel, wo.times arc1.weight arc2.weight, r.2⟩], r.1)

/-- ComposeFstImpl::MatchArc: matches one driven arc against the matching
side; each returned arc is submitted together with the driven arc to the
filter (side-1 arc first), and accepted pairs are emitted via AddArc. -/
def MatchArc [DecidableEq FS] (cfg : ComposeCfg W FS) (s1 s2 : Nat) (fs : FS)
    (matchera : Matcher W) (sa : Nat)
    (acc : List (Arc W) × StateTable FS) (arc : Arc W) (matchInput : Bool) :
    List (Arc W) × StateTable FS :=
  (matchera.find sa (if matchInput then arc.olabel else arc.ilabel)).foldl
    (fun acc arca =>
      if matchInput then
        let r := cfg.filt.filterArc s1 s2 fs arc arca
        if r.2.2 = cfg.filt.noState then acc else AddArc cfg.wo acc r.1 r.2.1 r.2.2
      else
        let r := cfg.filt.filterArc s1 s2 fs arca arc
        if r.2.2 = cfg.filt.noState then acc else AddArc cfg.wo acc r.1 r.2.1 r.2.2)
    acc

/-- The synthetic non-consuming self-loop Arc(match_input ? 0 : kNoLabel,
match_input ? kNoLabel : 0, Weight::One(), sb) built by OrderedExpand. -/
def loopArc (wo : WeightOps W) (sb : Nat) (matchInput : Bool) : Arc W :=
  ⟨if matchInput then 0 else kNoLabel, if matchInput then kNoLabel else 0, wo.one, sb⟩

/-- ComposeFstImpl::OrderedExpand: first the synthetic non-consuming
self-loop at the driven state, then each driven arc in declared order. -/
def OrderedExpand [DecidableEq FS] (cfg : ComposeCfg W FS) (s1 s2 : Nat) (fs : FS)
    (tbl : StateTable FS) (matchera : Matcher W) (sa : Nat)
    (arcsb : List (Arc W)) (sb : Nat) (matchInput : Bool) :
    List (Arc W) × StateTable FS :=
  let acc := MatchArc cfg s1 s2 fs matchera sa ([], tbl) (loopArc cfg.wo sb matchInput) matchInput
  arcsb.foldl (fun acc arc => MatchArc cfg s1 s2 fs matchera sa acc arc matchInput) acc

/-- The outcome of expanding one composition state: the emitted arcs, the
updated state table, the sticky error flag raised during matching, and
the cache mark that the arcs of the state are expanded (SetArcs). -/
structure ExpandResult (W FS : Type) where
  arcs : List (Arc W)
  table : StateTable FS
  errorSet : Bool
  arcsExpanded : Bool
deriving DecidableEq

/-- ComposeFstImpl::Expand on the tuple (s1, s2, fs): picks the matching
side via MatchInput and runs OrderedExpand so that the first OrderedExpand
argument pair is the side matched on. -/
def Expand [DecidableEq FS] (cfg : ComposeCfg W FS) (tbl : StateTable FS)
    (s1 s2 : Nat) (fs : FS) : ExpandResult W FS :=
  let mi := (MatchInput cfg s1 s2).1
  let r :=
    if mi then
      OrderedExpand cfg s1 s2 fs tbl cfg.matcher2 s2 (cfg.fst1.arcs.getD s1 []) s1 true
    else
      OrderedExpand cfg s1 s2 fs tbl cfg.matcher1 s1 (cfg.fst2.arcs.getD s2 []) s2 false
  ⟨r.1, r.2, (MatchInput cfg s1 s2).2, true⟩

/-- ComposeFstImpl::ComputeFinal: Times of the two final weights, possibly
rewritten by FilterFinal, with zero short-circuit on either side. -/
def ComputeFinal [DecidableEq W] (cfg : ComposeCfg W FS) (s1 s2 : Nat) (fs : FS) : W :=
  let final1 := cfg.matcher1.final s1
  if final1 = cfg.wo.zero then final1
  else
    let final2 := cfg.matcher2.final s2
    if final2 = cfg.wo.zero then final2
    else
      let r := cfg.filt.filterFinal s1 s2 fs final1 final2
      cfg.wo.times r.1 r.2

/-- The ordered arc pairs one MatchArc call accepts: each matching arc is
paired with the driven arc, submitted to the filter with the side-1 arc
first, and kept (after the filter's rewrites) when the successor filter
state is not the no-state. -/
def acceptedMatches [DecidableEq FS] (cfg : ComposeCfg W FS) (s1 s2 : Nat) (fs : FS)
    (matchera : Matcher W) (sa : Nat) (arc : Arc W) (matchInput : Bool) :
    List (Arc W × Arc W × FS) :=
  (matchera.find sa (if matchInput then arc.olabel else arc.ilabel)).filterMap
    (fun arca =>
      if matchInput then
        let r := cfg.filt.filterArc s1 s2 fs arc arca
        if r.2.2 = cfg.filt.noState then none else some r
      else
        let r := cfg.filt.filterArc s1 s2 fs arca arc
        if r.2.2 = cfg.filt.noState then none else some r)

/-- All accepted arc pairs of one state expansion, in emission order:
the synthetic self-loop's matches first, then the driven arcs in declared
order, each with its matches in matcher iteration order.  Every triple is
(side-1 arc, side-2 arc, successor filter state), whichever side drove. -/
def acceptedTriples [DecidableEq FS] (cfg : ComposeCfg W FS) (s1 s2 : Nat) (fs : FS) :
    List (Arc W × Arc W × FS) :=
  let mi := (MatchInput cfg s1 s2).1
  let matchera := if mi then cfg.matcher2 else cfg.matcher1
  let sa := if mi then s2 else s1
  let drivenArcs := if mi then cfg.fst1.arcs.getD s1 [] else cfg.fst2.arcs.getD s2 []
  let sb := if mi then s1 else s2
  acceptedMatches cfg s1 s2 fs matchera sa (loopArc cfg.wo sb mi) mi ++
    drivenArcs.flatMap (fun arc => acceptedMatches cfg s1 s2 fs matchera sa arc mi)

/-- The successor composition tuple of an accepted arc pair. -/
def tupleOf (t : Arc W × Arc W × FS) : Nat × Nat × FS :=
  (t.1.nextstate, t.2.1.nextstate, t.2.2)

/-- The composition arc an accepted pair is emitted as, given the state
table at its emission point. -/
def mkComposeArc [DecidableEq FS] (wo : WeightOps W) (tbl : StateTable FS)
    (t : Arc W × Arc W × FS) : Arc W :=
  ⟨t.1.ilabel, t.2.1.olabel, wo.times t.1.weight t.2.1.weight,
   (FindState tbl (tupleOf t)).2⟩

/-- The composition arcs emitted for a list of accepted pairs, interning
each successor tuple in turn. -/
def internList [DecidableEq FS] (wo : WeightOps W) (tbl : StateTable FS) :
    List (Arc W × Arc W × FS) → List (Arc W)
  | [] => []
  | t :: ts => mkComposeArc wo tbl t :: internList wo (FindState tbl (tupleOf t)).1 ts

/-- The state table after interning the successor tuples of a list of
accepted pairs. -/
def internTable [DecidableEq FS] (tbl : StateTable FS)
    (ts : List (Arc W × Arc W × FS)) : StateTable FS :=
  ts.foldl (fun tb t => (FindState tb (tupleOf t)).1) tbl

/-- One round of forward saturation: the states already in S together with
every state of the range that an e-edge reaches from S. -/
def stepSet (n : Nat) (e : Nat → Nat → Bool) (S : Finset Nat) : Finset Nat :=
  S ∪ (Finset.range n).filter (fun t => ∃ s ∈ S, e s t = true)

/-- The reachability closure of S along e within the states below n,
obtained by saturating n rounds. -/
def reachClose (n : Nat) (e : Nat → Nat → Bool) (S : Finset Nat) : Finset Nat :=
  (stepSet n e)^[n] S

/-- Number of states of the automaton view. -/
def numStates (f : Fst W) : Nat := f.arcs.length

/-- Whether some arc of state s goes to state t. -/
def edgeB (f : Fst W) (s t : Nat) : Bool :=
  (f.arcs.getD s []).any (fun a => a.nextstate == t)

/-- The one-arc step relation of the automaton. -/
def Edge (f : Fst W) (s t : Nat) : Prop := edgeB f s t = true

/-- A state is accessible when it is forward-reachable from the start
state (spec section 4.8). -/
def Accessible (f : Fst W) (t : Nat) : Prop :=
  ∃ s0, f.start = some s0 ∧ Relation.ReflTransGen (Edge f) s0 t

/-- A state is coaccessible when some state with non-zero final weight is
forward-reachable from it (spec section 4.8). -/
def Coaccessible [DecidableEq W] (wo : WeightOps W) (f : Fst W) (s : Nat) : Prop :=
  ∃ u, Relation.ReflTransGen (Edge f) s u ∧ f.finals.getD u wo.zero ≠ wo.zero

/-- Modelled from the spec: the access vector DfsVisit with SccVisitor
computes (dfs-visit.h is absent from src) — the set of states reachable
from the start state. -/
def accessSet (f : Fst W) : Finset Nat :=
  match f.start with
  | none => ∅
  | some s0 => reachClose (numStates f) (edgeB f) {s0}

/-- The states with non-zero final weight. -/
def finalStates [DecidableEq W] (wo : WeightOps W) (f : Fst W) : Finset Nat :=
  (Finset.range (numStates f)).filter (fun s => f.finals.getD s wo.zero ≠ wo.zero)

/-- Modelled from the spec: the coaccess vector DfsVisit with SccVisitor
computes (dfs-visit.h is absent from src) — the set of states that reach a
final state, i.e. the backward closure of the final states. -/
def coaccessSet [DecidableEq W] (wo : WeightOps W) (f : Fst W) : Finset Nat :=
  reachClose (numStates f) (fun a b => edgeB f b a) (finalStates wo f)

/-- The states Connect keeps, in increasing order: those both accessible
and coaccessible (the complement of the dstates vector it deletes). -/
def keepStates [DecidableEq W] (wo : WeightOps W) (f : Fst W) : List Nat :=
  (List.range (numStates f)).filter
    (fun s => decide (s ∈ accessSet f) && decide (s ∈ coaccessSet wo f))

/-- The new dense id of an old state: its position among the kept states,
or none when the state was deleted. -/
def renumber (keep : List Nat) (t : Nat) : Option Nat :=
  match keep with
  | [] => none
  | u :: rest => if u = t then some 0 else (renumber rest t).map (· + 1)

/-- Modelled from the spec: MutableFst::DeleteStates (mutable-fst.h is
absent from src) — deletes all states outside keep, drops arcs into
deleted states, renumbers the remaining states densely in order, and
unsets the start state if it was deleted. -/
def deleteStatesKeeping [DecidableEq W] (wo : WeightOps W) (f : Fst W)
    (keep : List Nat) : Fst W :=
  { start := f.start.bind (renumber keep)
    finals := keep.map (fun s => f.finals.getD s wo.zero)
    arcs := keep.map (fun s => (f.arcs.getD s []).filterMap (fun a =>
        (renumber keep a.nextstate).map (fun t => { a with nextstate := t })))
    isyms := f.isyms
    osyms := f.osyms }

/-- Connect (connect.h): computes access and coaccess and deletes every
state that is not both accessible and coaccessible. -/
def Connect [DecidableEq W] (wo : WeightOps W) (f : Fst W) : Fst W :=
  deleteStatesKeeping wo f (keepStates wo f)

/-- Well-formedness of an automaton view: per-state vectors have matching
lengths, every arc's nextstate exists and the start state exists. -/
def ValidFst (f : Fst W) : Bool :=
  (f.finals.length == f.arcs.length) &&
  f.arcs.all (fun l => l.all (fun a => a.nextstate < f.arcs.length)) &&
  (match f.start with
   | none => true
   | some s0 => decide (s0 < f.arcs.length))

/-- The natural-number test semiring used for concrete witnesses. -/
def natOps : WeightOps Nat := ⟨0, 1, fun a b => a * b⟩

/-- A concrete filter that accepts every pair and keeps the filter state. -/
def passFilter : ComposeFilter Nat Nat :=
  ⟨0, 99, fun _ _ f a b => (a, b, f), fun _ _ _ w1 w2 => (w1, w2)⟩

/-- Concrete left operand: transduces 1 to 2. -/
def fstA : Fst Nat := ⟨some 0, [0, 1], [[⟨1, 2, 1, 1⟩], []], none, none⟩

/-- Concrete right operand: transduces 2 to 3. -/
def fstB : Fst Nat := ⟨some 0, [0, 1], [[⟨2, 3, 1, 1⟩], []], none, none⟩

/-- A concrete input-label matcher over an automaton. -/
def matchIlabel (f : Fst Nat) : Nat → Int → List (Arc Nat) :=
  fun s l => (f.arcs.getD s []).filter (fun a => a.ilabel = l)

/-- A concrete output-label matcher over an automaton. -/
def matchOlabel (f : Fst Nat) : Nat → Int → List (Arc Nat) :=
  fun s l => (f.arcs.getD s []).filter (fun a => a.olabel = l)

/-- A concrete composition where both matchers report the require-match
priority. -/
def cfgDouble : ComposeCfg Nat Nat :=
  { wo := natOps
    fst1 := fstA
    fst2 := fstB
    matcher1 := ⟨matchOlabel fstA, fun _ => kRequirePriority, fun s => fstA.finals.getD s 0⟩
    matcher2 := ⟨matchIlabel fstB, fun _ => kRequirePriority, fun s => fstB.finals.getD s 0⟩
    filt := passFilter
    matchType := .both }

/-- A concrete composition where the two matchers have equal ordinary
priorities. -/
def cfgTie : ComposeCfg Nat Nat :=
  { wo := natOps
    fst1 := fstA
    fst2 := fstB
    matcher1 := ⟨matchOlabel fstA, fun _ => 1, fun s => fstA.finals.getD s 0⟩
    matcher2 := ⟨matchIlabel fstB, fun _ => 1, fun s => fstB.finals.getD s 0⟩
    filt := passFilter
    matchType := .both }

/-- A concrete composition whose matcher finals exercise both zero
short-circuits of ComputeFinal. -/
def cfgFinal : ComposeCfg Nat Nat :=
  { wo := natOps
    fst1 := fstA
    fst2 := fstB
    matcher1 := ⟨matchOlabel fstA, fun _ => 1, fun s => if s = 0 then 0 else 2⟩
    matcher2 := ⟨matchIlabel fstB, fun _ => 1, fun s => if s = 1 then 0 else 3⟩
    filt := passFilter
    matchType := .both }

/-- An alternative final-weight rewriter used to check that FilterFinal is
not consulted under the zero short-circuit. -/
def altFilterFinal : Nat → Nat → Nat → Nat → Nat → Nat × Nat := fun _ _ _ _ _ => (7, 7)

/-- An alternative second matcher used to check that the second final
weight is not consulted under the zero short-circuit. -/
def altMatcher : Matcher Nat := ⟨fun _ _ => [], fun _ => 5, fun _ => 9⟩

/-- A concrete unweighted operand. -/
def fstUnweighted : Fst Nat := ⟨some 0, [0, 1], [[⟨1, 1, 1, 1⟩], []], none, none⟩

/-- A concrete weighted operand (arc weight 5). -/
def fstWeighted : Fst Nat := ⟨some 0, [0, 5], [[⟨1, 1, 5, 1⟩], []], none, none⟩

/-- A concrete symbol table with a labeled checksum. -/
def symTableA : SymbolTableImpl := ⟨"left", 2, 2, ["<eps>", "x"], [], [], "cksumA"⟩

/-- A concrete symbol table with dense keys 0 and 1 and overflow key 5. -/
def symTableT : SymbolTableImpl :=
  ⟨"t", 6, 2, ["<eps>", "x", "hi"], [5], [(5, 2)], "cksumT"⟩

/-- A concrete four-state automaton whose state 2 is a dead-end branch:
0 is the start, 0→1→3 reaches the final state 3, and 0→2 does not. -/
def fstDeadBranch : Fst Nat :=
  ⟨some 0, [0, 0, 0, 7],
   [[⟨1, 1, 1, 1⟩, ⟨2, 2, 1, 2⟩], [⟨3, 3, 1, 3⟩], [], []], none, none⟩

theorem foldl_eq_foldl_filterMap {α β σ : Type _} (g : α → Option β) (F : σ → α → σ)
    (step : σ → β → σ)
    (h : ∀ s a, F s a = match g a with | none => s | some b => step s b)
    (l : List α) (s : σ) :
    l.foldl F s = (l.filterMap g).foldl step s := by
  induction l generalizing s with
  | nil => rfl
  | cons a l ih =>
      rw [List.foldl_cons, List.filterMap_cons]
      cases hg : g a with
      | none => rw [ih, h s a, hg]
      | some b => rw [List.foldl_cons, ih, h s a, hg]

theorem foldl_flatMap {α β σ : Type _} (h : α → List β) (step : σ → β → σ)
    (l : List α) (s : σ) :
    l.foldl (fun s a => (h a).foldl step s) s = (l.flatMap h).foldl step s := by
  induction l generalizing s with
  | nil => rfl
  | cons a l ih => rw [List.foldl_cons, List.flatMap_cons, List.foldl_append, ih]

/-- C9: inversion is an involution — applying Invert twice restores every
arc's labels, leaves weights, states, start and finals unchanged, and
returns the symbol tables to their original assignment. -/
theorem Invert_involution (f : Fst W) : Invert (Invert f) = f := by
  have harc : ∀ a : Arc W, InvertMapper (InvertMapper a) = a := fun a => rfl
  cases f with
  | mk st fi ar is os => simp [Invert, List.map_map, Function.comp_def, harc]

/-- C4 counterexample: over a non-commutative semiring, composing an
unweighted left operand with a weighted right operand does not set the
error bit, although at least one operand is weighted. -/
theorem CreateBase2_weight_error_counterexample :
    CreateBase2WeightError natOps false fstUnweighted fstWeighted = false ∧
    IsUnweighted natOps fstWeighted = false := by decide

/-- C4 amended: composition construction sets the weight-commutativity
error exactly when times is not commutative and both operands are
weighted; one unweighted operand suffices to avoid the error. -/
theorem CreateBase2_weight_error_iff [DecidableEq W] (wo : WeightOps W)
    (commutative : Bool) (fst1 fst2 : Fst W) :
    CreateBase2WeightError wo commutative fst1 fst2 = true ↔
      commutative = false ∧ IsUnweighted wo fst1 = false ∧
        IsUnweighted wo fst2 = false := by
  unfold CreateBase2WeightError
  cases commutative <;>
    cases h1 : IsUnweighted wo fst1 <;>
      cases h2 : IsUnweighted wo fst2 <;> simp

/-- C5 counterexample: with the left operand's output table set and the
right operand's input table unset, InitBase does not set the error
property, although the tables are not both unset and cannot compare equal
by checksum. -/
theorem InitBase_symbol_error_counterexample :
    InitBaseSymbolError true (some symTableA) none = false := by decide

/-- C5 amended: InitBase sets the error property exactly when the check is
enabled and both tables are set with differing labeled checksums; an
unset table on either side is always compatible, and disabling the
configuration flag makes every pair compatible. -/
theorem InitBase_symbol_error_iff (flag : Bool)
    (osyms1 isyms2 : Option SymbolTableImpl) :
    (InitBaseSymbolError flag osyms1 isyms2 = true ↔
      flag = true ∧ ∃ a b, osyms1 = some a ∧ isyms2 = some b ∧
        a.labeledCheckSum ≠ b.labeledCheckSum) ∧
    CompatSymbols false isyms2 osyms1 = true := by
  constructor
  · unfold InitBaseSymbolError CompatSymbols
    cases flag with
    | false => simp
    | true =>
        cases osyms1 with
        | none => cases isyms2 <;> simp
        | some a =>
            cases isyms2 with
            | none => simp
            | some b =>
                by_cases h : b.labeledCheckSum = a.labeledCheckSum <;>
                  simp [h] <;> simp [eq_comm] at h ⊢ <;> simp [h]
  · unfold CompatSymbols
    simp

/-- C10: symbol-table lookup is total — a key that resolves to no symbol
(outside the dense range and absent from the overflow map, or with an
index out of range) yields the empty string, and an absent symbol yields
the sentinel kNoSymbol. -/
theorem SymbolTable_find_total (t : SymbolTableImpl) (key : Int) (sym : String) :
    ((key < 0 ∨ key ≥ t.denseKeyLimit) → keyMapFind t.keyMap key = none →
        t.FindKey key = "") ∧
    (¬(key < 0 ∨ key ≥ t.denseKeyLimit) → (t.symbols.length : Int) ≤ key →
        t.FindKey key = "") ∧
    (∀ idx, (key < 0 ∨ key ≥ t.denseKeyLimit) →
        keyMapFind t.keyMap key = some idx →
        (idx < 0 ∨ (t.symbols.length : Int) ≤ idx) → t.FindKey key = "") ∧
    (sym ∉ t.symbols → t.FindSymbol sym = kNoSymbol) := by
  refine ⟨?_, ?_, ?_, ?_⟩
  · intro h hmap
    unfold SymbolTableImpl.FindKey
    rw [if_pos h, hmap]
  · intro h hlen
    unfold SymbolTableImpl.FindKey
    rw [if_neg h]
    have hk : ¬key < 0 := fun hlt => h (Or.inl hlt)
    simp only []
    rw [if_pos]
    exact Or.inr (not_lt.mp (fun hlt => absurd hlen (not_le.mpr hlt)))
  · intro idx h hmap hidx
    unfold SymbolTableImpl.FindKey
    rw [if_pos h, hmap]
    simp only []
    rw [if_pos]
    rcases hidx with h1 | h2
    · exact Or.inl h1
    · exact Or.inr (not_lt.mp (fun hlt => absurd h2 (not_le.mpr hlt)))
  · intro habs
    unfold SymbolTableImpl.FindSymbol denseSymbolMapFind
    have : t.symbols.findIdx? (fun s => s = sym) = none := by
      rw [List.findIdx?_eq_none_iff]
      intro x hx
      simp only [decide_eq_false_iff_not]
      intro hxe
      exact habs (hxe ▸ hx)
    rw [this]
    simp [kNoSymbol]

theorem MatchArc_eq_foldl [DecidableEq FS] (cfg : ComposeCfg W FS) (s1 s2 : Nat)
    (fs : FS) (matchera : Matcher W) (sa : Nat)
    (acc : List (Arc W) × StateTable FS) (arc : Arc W) (mi : Bool) :
    MatchArc cfg s1 s2 fs matchera sa acc arc mi =
      (acceptedMatches cfg s1 s2 fs matchera sa arc mi).foldl
        (fun acc t => AddArc cfg.wo acc t.1 t.2.1 t.2.2) acc := by
  unfold MatchArc acceptedMatches
  refine foldl_eq_foldl_filterMap _ _ _ ?_ _ _
  intro s a
  cases mi with
  | false =>
      simp only [Bool.false_eq_true, if_false]
      by_cases hf : (cfg.filt.filterArc s1 s2 fs a arc).2.2 = cfg.filt.noState <;>
        simp [hf]
  | true =>
      simp only [if_true]
      by_cases hf : (cfg.filt.filterArc s1 s2 fs arc a).2.2 = cfg.filt.noState <;>
        simp [hf]

theorem foldl_AddArc [DecidableEq FS] (wo : WeightOps W)
    (ts : List (Arc W × Arc W × FS)) (l : List (Arc W)) (tbl : StateTable FS) :
    ts.foldl (fun acc t => AddArc wo acc t.1 t.2.1 t.2.2) (l, tbl) =
      (l ++ internList wo tbl ts, internTable tbl ts) := by
  induction ts generalizing l tbl with
  | nil => simp [internList, internTable]
  | cons t ts ih =>
      rw [List.foldl_cons]
      have hstep : AddArc wo (l, tbl) t.1 t.2.1 t.2.2 =
          (l ++ [mkComposeArc wo tbl t], (FindState tbl (tupleOf t)).1) := rfl
      rw [hstep, ih]
      simp [internList, internTable]

theorem OrderedExpand_eq [DecidableEq FS] (cfg : ComposeCfg W FS) (s1 s2 : Nat)
    (fs : FS) (tbl : StateTable FS) (matchera : Matcher W) (sa : Nat)
    (arcsb : List (Arc W)) (sb : Nat) (mi : Bool) :
    OrderedExpand cfg s1 s2 fs tbl matchera sa arcsb sb mi =
      (internList cfg.wo tbl
        (acceptedMatches cfg s1 s2 fs matchera sa (loopArc cfg.wo sb mi) mi ++
          arcsb.flatMap (fun arc => acceptedMatches cfg s1 s2 fs matchera sa arc mi)),
       internTable tbl
        (acceptedMatches cfg s1 s2 fs matchera sa (loopArc cfg.wo sb mi) mi ++
          arcsb.flatMap (fun arc => acceptedMatches cfg s1 s2 fs matchera sa arc mi))) := by
  unfold OrderedExpand
  have hbody : (fun acc arc => MatchArc cfg s1 s2 fs matchera sa acc arc mi) =
      (fun acc arc => (acceptedMatches cfg s1 s2 fs matchera sa arc mi).foldl
        (fun acc t => AddArc cfg.wo acc t.1 t.2.1 t.2.2) acc) := by
    funext acc arc
    exact MatchArc_eq_foldl cfg s1 s2 fs matchera sa acc arc mi
  rw [MatchArc_eq_foldl, hbody, foldl_flatMap, ← List.foldl_append, foldl_AddArc]
  simp

theorem Expand_eq [DecidableEq FS] (cfg : ComposeCfg W FS) (tbl : StateTable FS)
    (s1 s2 : Nat) (fs : FS) :
    Expand cfg tbl s1 s2 fs =
      ⟨internList cfg.wo tbl (acceptedTriples cfg s1 s2 fs),
       internTable tbl (acceptedTriples cfg s1 s2 fs),
       (MatchInput cfg s1 s2).2, true⟩ := by
  unfold Expand acceptedTriples
  cases hmi : (MatchInput cfg s1 s2).1 <;> simp only [hmi] <;>
    simp [OrderedExpand_eq]

theorem internList_length [DecidableEq FS] (wo : WeightOps W) (tbl : StateTable FS)
    (ts : List (Arc W × Arc W × FS)) :
    (internList wo tbl ts).length = ts.length := by
  induction ts generalizing tbl with
  | nil => rfl
  | cons t ts ih => simp [internList, ih]

theorem internList_get? [DecidableEq FS] (wo : WeightOps W) (tbl : StateTable FS)
    (ts : List (Arc W × Arc W × FS)) (i : Nat) (hi : i < ts.length) :
    (internList wo tbl ts).get? i =
      some (mkComposeArc wo (internTable tbl (ts.take i)) (ts.get ⟨i, hi⟩)) := by
  induction ts generalizing tbl i with
  | nil => exact absurd hi (Nat.not_lt_zero i)
  | cons t ts ih =>
      cases i with
      | zero => simp [internList, internTable]
      | succ i =>
          have hi' : i < ts.length := Nat.lt_of_succ_lt_succ hi
          have htail : internTable tbl ((t :: ts).take (i + 1)) =
              internTable (FindState tbl (tupleOf t)).1 (ts.take i) := rfl
          rw [htail]
          simpa [internList] using ih (FindState tbl (tupleOf t)).1 i hi'

/-- C1: each accepted arc pair is emitted as the composition arc whose
input label is the side-1 arc's input label, whose output label is the
side-2 arc's output label, whose weight is Times of the two weights, and
whose next state is the state-table id of the successor tuple — with the
triples normalized to (left arc, right arc) regardless of which side drove
matching. -/
theorem Expand_arc_pairing [DecidableEq FS] (cfg : ComposeCfg W FS)
    (tbl : StateTable FS) (s1 s2 : Nat) (fs : FS) :
    ((Expand cfg tbl s1 s2 fs).arcs.length =
      (acceptedTriples cfg s1 s2 fs).length) ∧
    (∀ i, (hi : i < (acceptedTriples cfg s1 s2 fs).length) →
      (Expand cfg tbl s1 s2 fs).arcs.get? i =
        some ⟨((acceptedTriples cfg s1 s2 fs).get ⟨i, hi⟩).1.ilabel,
              ((acceptedTriples cfg s1 s2 fs).get ⟨i, hi⟩).2.1.olabel,
              cfg.wo.times ((acceptedTriples cfg s1 s2 fs).get ⟨i, hi⟩).1.weight
                ((acceptedTriples cfg s1 s2 fs).get ⟨i, hi⟩).2.1.weight,
              (FindState (internTable tbl ((acceptedTriples cfg s1 s2 fs).take i))
                 (((acceptedTriples cfg s1 s2 fs).get ⟨i, hi⟩).1.nextstate,
                  ((acceptedTriples cfg s1 s2 fs).get ⟨i, hi⟩).2.1.nextstate,
                  ((acceptedTriples cfg s1 s2 fs).get ⟨i, hi⟩).2.2)).2⟩) := by
  constructor
  · rw [Expand_eq]
    exact internList_length cfg.wo tbl (acceptedTriples cfg s1 s2 fs)
  · intro i hi
    rw [Expand_eq]
    exact internList_get? cfg.wo tbl (acceptedTriples cfg s1 s2 fs) i hi

/-- C1 witness: at a concrete composition, the single accepted pair is
emitted as the arc with the left input label 1, the right output label 3,
the product weight, and the id 0 of the freshly interned tuple. -/
theorem Expand_arc_pairing_witness :
    0 < (acceptedTriples cfgTie 0 0 0).length ∧
    (Expand cfgTie ⟨[]⟩ 0 0 0).arcs.get? 0 =
      some ⟨((acceptedTriples cfgTie 0 0 0).get ⟨0, by decide⟩).1.ilabel,
            ((acceptedTriples cfgTie 0 0 0).get ⟨0, by decide⟩).2.1.olabel,
            cfgTie.wo.times ((acceptedTriples cfgTie 0 0 0).get ⟨0, by decide⟩).1.weight
              ((acceptedTriples cfgTie 0 0 0).get ⟨0, by decide⟩).2.1.weight,
            (FindState (internTable ⟨[]⟩ ((acceptedTriples cfgTie 0 0 0).take 0))
               (((acceptedTriples cfgTie 0 0 0).get ⟨0, by decide⟩).1.nextstate,
                ((acceptedTriples cfgTie 0 0 0).get ⟨0, by decide⟩).2.1.nextstate,
                ((acceptedTriples cfgTie 0 0 0).get ⟨0, by decide⟩).2.2)).2⟩ :=
  ⟨by decide, (Expand_arc_pairing cfgTie ⟨[]⟩ 0 0 0).2 0 (by decide)⟩

/-- C2: the arcs of one state expansion appear in this exact order: first
the pairs obtained from the synthetic self-loop on the driven side, in the
matching side's iteration order, then for each driven arc in declared
order its matches in matcher iteration order. -/
theorem Expand_emission_order [DecidableEq FS] (cfg : ComposeCfg W FS)
    (tbl : StateTable FS) (s1 s2 : Nat) (fs : FS) :
    (Expand cfg tbl s1 s2 fs).arcs =
      internList cfg.wo tbl
        (acceptedMatches cfg s1 s2 fs
            (if (MatchInput cfg s1 s2).1 then cfg.matcher2 else cfg.matcher1)
            (if (MatchInput cfg s1 s2).1 then s2 else s1)
            (loopArc cfg.wo (if (MatchInput cfg s1 s2).1 then s1 else s2)
              (MatchInput cfg s1 s2).1)
            (MatchInput cfg s1 s2).1 ++
          (if (MatchInput cfg s1 s2).1 then cfg.fst1.arcs.getD s1 []
           else cfg.fst2.arcs.getD s2 []).flatMap
            (fun arc => acceptedMatches cfg s1 s2 fs
              (if (MatchInput cfg s1 s2).1 then cfg.matcher2 else cfg.matcher1)
              (if (MatchInput cfg s1 s2).1 then s2 else s1) arc
              (MatchInput cfg s1 s2).1)) := by
  rw [Expand_eq]
  rfl

/-- C3 counterexample: a concrete state whose two matchers both report the
require-match priority: the error property is set, yet expansion proceeds
and arcs are produced, contradicting "no arcs are produced". -/
theorem Expand_double_require_counterexample :
    (Expand cfgDouble ⟨[]⟩ 0 0 0).errorSet = true ∧
    (Expand cfgDouble ⟨[]⟩ 0 0 0).arcs ≠ [] := by decide

/-- C3 amended: when both matchers report the require-match priority, the
engine sets its sticky error property but still expands the state as if
matching on the input side, so arcs may be produced. -/
theorem Expand_double_require [DecidableEq FS] (cfg : ComposeCfg W FS)
    (tbl : StateTable FS) (s1 s2 : Nat) (fs : FS)
    (hmt : cfg.matchType = .both)
    (h1 : cfg.matcher1.priority s1 = kRequirePriority)
    (h2 : cfg.matcher2.priority s2 = kRequirePriority) :
    (Expand cfg tbl s1 s2 fs).errorSet = true ∧
    (Expand cfg tbl s1 s2 fs).arcs =
      (OrderedExpand cfg s1 s2 fs tbl cfg.matcher2 s2
        (cfg.fst1.arcs.getD s1 []) s1 true).1 := by
  have hMI : MatchInput cfg s1 s2 = (true, true) := by
    unfold MatchInput
    rw [hmt]
    simp [h1, h2]
  exact ⟨by simp [Expand, hMI], by simp [Expand, hMI]⟩

/-- C3 amended witness: the amended statement at the concrete double
require configuration. -/
theorem Expand_double_require_witness :
    (cfgDouble.matchType = .both ∧
     cfgDouble.matcher1.priority 0 = kRequirePriority ∧
     cfgDouble.matcher2.priority 0 = kRequirePriority) ∧
    ((Expand cfgDouble ⟨[]⟩ 0 0 0).errorSet = true ∧
     (Expand cfgDouble ⟨[]⟩ 0 0 0).arcs =
       (OrderedExpand cfgDouble 0 0 0 ⟨[]⟩ cfgDouble.matcher2 0
         (cfgDouble.fst1.arcs.getD 0 []) 0 true).1) :=
  ⟨⟨rfl, rfl, rfl⟩, Expand_double_require cfgDouble ⟨[]⟩ 0 0 0 rfl rfl rfl⟩

/-- C6: the final weight of a composition state is Times of the two
operand final weights possibly rewritten by FilterFinal, with zero
short-circuit: when either side is zero the result is zero and neither the
other side's final weight nor FilterFinal is consulted; and expansion
marks the cache entry arcs-expanded. -/
theorem ComputeFinal_spec [DecidableEq W] [DecidableEq FS] (cfg : ComposeCfg W FS)
    (tbl : StateTable FS) (s1 s2 : Nat) (fs : FS) :
    (ComputeFinal cfg s1 s2 fs =
      if cfg.matcher1.final s1 = cfg.wo.zero then cfg.wo.zero
      else if cfg.matcher2.final s2 = cfg.wo.zero then cfg.wo.zero
      else cfg.wo.times
        (cfg.filt.filterFinal s1 s2 fs (cfg.matcher1.final s1)
          (cfg.matcher2.final s2)).1
        (cfg.filt.filterFinal s1 s2 fs (cfg.matcher1.final s1)
          (cfg.matcher2.final s2)).2) ∧
    (∀ g m2, cfg.matcher1.final s1 = cfg.wo.zero →
      ComputeFinal { cfg with
                      matcher2 := m2,
                      filt := { cfg.filt with filterFinal := g } } s1 s2 fs =
        cfg.wo.zero) ∧
    (∀ g, cfg.matcher1.final s1 ≠ cfg.wo.zero →
      cfg.matcher2.final s2 = cfg.wo.zero →
      ComputeFinal { cfg with
                      filt := { cfg.filt with filterFinal := g } } s1 s2 fs =
        cfg.wo.zero) ∧
    (Expand cfg tbl s1 s2 fs).arcsExpanded = true := by
  refine ⟨?_, ?_, ?_, rfl⟩
  · by_cases h1 : cfg.matcher1.final s1 = cfg.wo.zero
    · simp [ComputeFinal, h1]
    · by_cases h2 : cfg.matcher2.final s2 = cfg.wo.zero <;>
        simp [ComputeFinal, h1, h2]
  · intro g m2 h1
    simp [ComputeFinal, h1]
  · intro g h1 h2
    simp [ComputeFinal, h1, h2]

/-- C6 witness: both zero short-circuits exercised at a concrete
composition, with an alternative FilterFinal and second matcher showing
they are not consulted. -/
theorem ComputeFinal_spec_witness :
    (cfgFinal.matcher1.final 0 = cfgFinal.wo.zero ∧
     ComputeFinal { cfgFinal with
                     matcher2 := altMatcher,
                     filt := { cfgFinal.filt with
                                filterFinal := altFilterFinal } } 0 0 0 =
       cfgFinal.wo.zero) ∧
    (cfgFinal.matcher1.final 1 ≠ cfgFinal.wo.zero ∧
     cfgFinal.matcher2.final 1 = cfgFinal.wo.zero ∧
     ComputeFinal { cfgFinal with
                     filt := { cfgFinal.filt with
                                filterFinal := altFilterFinal } } 1 1 0 =
       cfgFinal.wo.zero) :=
  ⟨⟨by decide,
    (ComputeFinal_spec cfgFinal ⟨[]⟩ 0 0 0).2.1 altFilterFinal altMatcher (by decide)⟩,
   ⟨by decide, by decide,
    (ComputeFinal_spec cfgFinal ⟨[]⟩ 1 1 0).2.2.1 altFilterFinal (by decide) (by decide)⟩⟩

/-- C7: when the match type is both and neither matcher requires matching,
equal priorities are broken in favour of matcher1: MatchInput returns true
and the state expands exactly as when matcher1's priority is preferred,
with the first operand's arcs iterated and matcher2 queried. -/
theorem MatchInput_tie [DecidableEq FS] (cfg : ComposeCfg W FS)
    (tbl : StateTable FS) (s1 s2 : Nat) (fs : FS)
    (hmt : cfg.matchType = .both)
    (hreq : cfg.matcher1.priority s1 ≠ kRequirePriority)
    (htie : cfg.matcher1.priority s1 = cfg.matcher2.priority s2) :
    MatchInput cfg s1 s2 = (true, false) ∧
    (Expand cfg tbl s1 s2 fs).arcs =
      (OrderedExpand cfg s1 s2 fs tbl cfg.matcher2 s2
        (cfg.fst1.arcs.getD s1 []) s1 true).1 := by
  have h2 : cfg.matcher2.priority s2 ≠ kRequirePriority := htie ▸ hreq
  have hMI : MatchInput cfg s1 s2 = (true, false) := by
    unfold MatchInput
    rw [hmt]
    simp [hreq, h2, htie]
  exact ⟨hMI, by simp [Expand, hMI]⟩

/-- C7 witness: the tie-break at a concrete composition with equal
ordinary priorities. -/
theorem MatchInput_tie_witness :
    (cfgTie.matchType = .both ∧
     cfgTie.matcher1.priority 0 ≠ kRequirePriority ∧
     cfgTie.matcher1.priority 0 = cfgTie.matcher2.priority 0) ∧
    (MatchInput cfgTie 0 0 = (true, false) ∧
     (Expand cfgTie ⟨[]⟩ 0 0 0).arcs =
       (OrderedExpand cfgTie 0 0 0 ⟨[]⟩ cfgTie.matcher2 0
         (cfgTie.fst1.arcs.getD 0 []) 0 true).1) :=
  ⟨⟨rfl, by decide, rfl⟩, MatchInput_tie cfgTie ⟨[]⟩ 0 0 0 rfl (by decide) rfl⟩

/-- C10 witness: the lemma applied to a concrete table, an absent key and
an absent symbol. -/
theorem SymbolTable_find_total_witness :
    (((42 : Int) < 0 ∨ (42 : Int) ≥ symTableT.denseKeyLimit) ∧
      keyMapFind symTableT.keyMap 42 = none ∧
      symTableT.FindKey 42 = "") ∧
    ("zz" ∉ symTableT.symbols ∧ symTableT.FindSymbol "zz" = kNoSymbol) :=
  ⟨⟨by decide, by decide,
    (SymbolTable_find_total symTableT 42 "zz").1 (by decide) (by decide)⟩,
   ⟨by decide,
    (SymbolTable_find_total symTableT 42 "zz").2.2.2 (by decide)⟩⟩

theorem subset_stepSet (n : Nat) (e : Nat → Nat → Bool) (S : Finset Nat) :
    S ⊆ stepSet n e S :=
  Finset.subset_union_left

theorem stepSet_subset_range (n : Nat) (e : Nat → Nat → Bool) {S : Finset Nat}
    (hS : S ⊆ Finset.range n) : stepSet n e S ⊆ Finset.range n :=
  Finset.union_subset hS (Finset.filter_subset _ _)

theorem iterate_stepSet_subset_range (n : Nat) (e : Nat → Nat → Bool)
    {S : Finset Nat} (hS : S ⊆ Finset.range n) (k : Nat) :
    (stepSet n e)^[k] S ⊆ Finset.range n := by
  induction k with
  | zero => exact hS
  | succ k ih =>
      rw [Function.iterate_succ_apply']
      exact stepSet_subset_range n e ih

theorem subset_iterate_stepSet (n : Nat) (e : Nat → Nat → Bool) (S : Finset Nat)
    (k : Nat) : S ⊆ (stepSet n e)^[k] S := by
  induction k with
  | zero => exact subset_rfl
  | succ k ih =>
      rw [Function.iterate_succ_apply']
      exact ih.trans (subset_stepSet n e _)

theorem stepSet_range_fixed (n : Nat) (e : Nat → Nat → Bool) :
    stepSet n e (Finset.range n) = Finset.range n :=
  Finset.Subset.antisymm (stepSet_subset_range n e subset_rfl)
    (subset_stepSet n e _)

theorem stepSet_reachClose_fixed (n : Nat) (e : Nat → Nat → Bool)
    {S : Finset Nat} (hS : S ⊆ Finset.range n) :
    stepSet n e (reachClose n e S) = reachClose n e S := by
  unfold reachClose
  by_cases hfix : ∃ k, k < n ∧ (stepSet n e)^[k + 1] S = (stepSet n e)^[k] S
  · obtain ⟨k, hk, hfx⟩ := hfix
    rw [Function.iterate_succ_apply'] at hfx
    have hall : ∀ m, (stepSet n e)^[k + m] S = (stepSet n e)^[k] S := by
      intro m
      induction m with
      | zero => rfl
      | succ m ih =>
          rw [show k + (m + 1) = (k + m) + 1 by omega,
              Function.iterate_succ_apply', ih, hfx]
    have h1 : (stepSet n e)^[n] S = (stepSet n e)^[k] S := by
      have := hall (n - k)
      rwa [show k + (n - k) = n by omega] at this
    rw [h1, hfx]
  · push_neg at hfix
    have hgrow : ∀ k, k ≤ n → k ≤ ((stepSet n e)^[k] S).card := by
      intro k
      induction k with
      | zero => intro _; exact Nat.zero_le _
      | succ k ih =>
          intro hk
          have hk' : k < n := Nat.lt_of_succ_le hk
          have ihk := ih (Nat.le_of_lt hk')
          have hsub : (stepSet n e)^[k] S ⊆ (stepSet n e)^[k + 1] S := by
            rw [Function.iterate_succ_apply']
            exact subset_stepSet n e _
          have hss : (stepSet n e)^[k] S ⊂ (stepSet n e)^[k + 1] S :=
            ssubset_of_subset_of_ne hsub (Ne.symm (hfix k hk'))
          have := Finset.card_lt_card hss
          omega
    have hcard : n ≤ ((stepSet n e)^[n] S).card := hgrow n le_rfl
    have hsubr : (stepSet n e)^[n] S ⊆ Finset.range n :=
      iterate_stepSet_subset_range n e hS n
    have heq : (stepSet n e)^[n] S = Finset.range n :=
      Finset.eq_of_subset_of_card_le hsubr (by simpa using hcard)
    rw [heq, stepSet_range_fixed]

theorem mem_iterate_stepSet_rtg (n : Nat) (e : Nat → Nat → Bool) (S : Finset Nat)
    (k : Nat) {t : Nat} (ht : t ∈ (stepSet n e)^[k] S) :
    ∃ s ∈ S, Relation.ReflTransGen (fun a b => e a b = true) s t := by
  induction k generalizing t with
  | zero => exact ⟨t, ht, Relation.ReflTransGen.refl⟩
  | succ k ih =>
      rw [Function.iterate_succ_apply'] at ht
      rcases Finset.mem_union.mp ht with h | h
      · exact ih h
      · have hf := Finset.mem_filter.mp h
        obtain ⟨s, hs, hst⟩ := hf.2
        obtain ⟨s0, hs0, hrtg⟩ := ih hs
        exact ⟨s0, hs0, hrtg.tail hst⟩

theorem rtg_mem_reachClose (n : Nat) (e : Nat → Nat → Bool) {S : Finset Nat}
    (hS : S ⊆ Finset.range n) (hE : ∀ a b, e a b = true → b < n)
    {s t : Nat} (hs : s ∈ S)
    (h : Relation.ReflTransGen (fun a b => e a b = true) s t) :
    t ∈ reachClose n e S := by
  induction h with
  | refl => exact subset_iterate_stepSet n e S n hs
  | tail hab hbc ih =>
      rw [← stepSet_reachClose_fixed n e hS]
      exact Finset.mem_union_right _
        (Finset.mem_filter.mpr
          ⟨Finset.mem_range.mpr (hE _ _ hbc), _, ih, hbc⟩)

theorem mem_reachClose_iff (n : Nat) (e : Nat → Nat → Bool) {S : Finset Nat}
    (hS : S ⊆ Finset.range n) (hE : ∀ a b, e a b = true → b < n) (t : Nat) :
    t ∈ reachClose n e S ↔
      ∃ s ∈ S, Relation.ReflTransGen (fun a b => e a b = true) s t := by
  constructor
  · exact fun h => mem_iterate_stepSet_rtg n e S n h
  · rintro ⟨s, hs, h⟩
    exact rtg_mem_reachClose n e hS hE hs h

theorem validFst_parts {f : Fst W} (hv : ValidFst f = true) :
    f.finals.length = f.arcs.length ∧
    (∀ l ∈ f.arcs, ∀ a ∈ l, a.nextstate < f.arcs.length) ∧
    (∀ s0, f.start = some s0 → s0 < f.arcs.length) := by
  unfold ValidFst at hv
  rw [Bool.and_eq_true, Bool.and_eq_true] at hv
  obtain ⟨⟨h1, h2⟩, h3⟩ := hv
  refine ⟨by simpa using h1, ?_, ?_⟩
  · rw [List.all_eq_true] at h2
    intro l hl a ha
    have h4 := h2 l hl
    rw [List.all_eq_true] at h4
    simpa using h4 a ha
  · intro s0 h0
    rw [h0] at h3
    simpa using h3

theorem edge_src_lt {f : Fst W} {s t : Nat} (h : edgeB f s t = true) :
    s < numStates f := by
  by_contra hs
  push_neg at hs
  unfold edgeB at h
  rw [List.getD_eq_getElem?_getD, List.getElem?_eq_none hs] at h
  simp at h

theorem edge_tgt_lt {f : Fst W} (hv : ValidFst f = true) {s t : Nat}
    (h : edgeB f s t = true) : t < numStates f := by
  unfold edgeB at h
  obtain ⟨a, ha, hat⟩ := List.any_eq_true.mp h
  have hant : a.nextstate = t := by simpa using hat
  by_cases hs : s < f.arcs.length
  · have hmem : f.arcs.getD s [] ∈ f.arcs := by
      rw [List.getD_eq_getElem?_getD, List.getElem?_eq_getElem hs]
      simpa using List.get_mem f.arcs s hs
    have hb := (validFst_parts hv).2.1 _ hmem a ha
    rw [hant] at hb
    exact hb
  · push_neg at hs
    rw [List.getD_eq_getElem?_getD, List.getElem?_eq_none hs] at ha
    simp at ha

theorem mem_accessSet_iff {f : Fst W} (hv : ValidFst f = true) (t : Nat) :
    t ∈ accessSet f ↔ Accessible f t := by
  unfold accessSet Accessible
  cases h0 : f.start with
  | none => simp
  | some s0 =>
      have hs0 : s0 < numStates f := (validFst_parts hv).2.2 s0 h0
      rw [mem_reachClose_iff (numStates f) (edgeB f)
            (by simpa [Finset.singleton_subset_iff, Finset.mem_range] using hs0)
            (fun a b hab => edge_tgt_lt hv hab)]
      constructor
      · rintro ⟨s, hs, hrtg⟩
        rw [Finset.mem_singleton] at hs
        subst hs
        exact ⟨s, rfl, hrtg⟩
      · rintro ⟨s1, hs1, hrtg⟩
        injection hs1 with h1
        subst h1
        exact ⟨s0, Finset.mem_singleton_self s0, hrtg⟩

theorem mem_coaccessSet_iff [DecidableEq W] (wo : WeightOps W) {f : Fst W}
    (hv : ValidFst f = true) (t : Nat) :
    t ∈ coaccessSet wo f ↔ Coaccessible wo f t := by
  unfold coaccessSet Coaccessible finalStates
  rw [mem_reachClose_iff (numStates f) (fun a b => edgeB f b a)
        (Finset.filter_subset _ _)
        (fun a b hab => edge_src_lt hab)]
  constructor
  · rintro ⟨u, hu, hrtg⟩
    have hfu := Finset.mem_filter.mp hu
    exact ⟨u, Relation.reflTransGen_swap.mp hrtg, hfu.2⟩
  · rintro ⟨u, hrtg, hfin⟩
    have hun : u < numStates f := by
      by_contra hun
      push_neg at hun
      have hlen : f.finals.length ≤ u := by
        rw [(validFst_parts hv).1]
        exact hun
      rw [List.getD_eq_getElem?_getD, List.getElem?_eq_none hlen] at hfin
      simp at hfin
    exact ⟨u, Finset.mem_filter.mpr ⟨Finset.mem_range.mpr hun, hfin⟩,
      Relation.reflTransGen_swap.mpr hrtg⟩

theorem mem_keepStates_iff [DecidableEq W] (wo : WeightOps W) {f : Fst W}
    (hv : ValidFst f = true) (s : Nat) :
    s ∈ keepStates wo f ↔
      s < numStates f ∧ Accessible f s ∧ Coaccessible wo f s := by
  unfold keepStates
  rw [List.mem_filter, List.mem_range, Bool.and_eq_true,
      decide_eq_true_eq, decide_eq_true_eq,
      mem_accessSet_iff hv, mem_coaccessSet_iff wo hv]

theorem renumber_some_spec (keep : List Nat) (t j : Nat)
    (h : renumber keep t = some j) :
    ∃ hj : j < keep.length, keep.get ⟨j, hj⟩ = t := by
  induction keep generalizing j with
  | nil => cases h
  | cons u rest ih =>
      unfold renumber at h
      by_cases hu : u = t
      · rw [if_pos hu] at h
        injection h with h
        subst h
        exact ⟨Nat.succ_pos _, hu⟩
      · rw [if_neg hu] at h
        cases hr : renumber rest t with
        | none => rw [hr] at h; cases h
        | some j' =>
            rw [hr] at h
            injection h with h
            subst h
            obtain ⟨hj', hg⟩ := ih j' hr
            exact ⟨Nat.succ_lt_succ hj', by simpa using hg⟩

/-- C8: Connect deletes exactly the states that are not both accessible
and coaccessible, renumbers the kept states densely and order-preserving,
and every surviving arc lies on a successful path: its source is
accessible, its target is coaccessible, and it comes from an original arc
between the corresponding kept states. -/
theorem Connect_trims [DecidableEq W] (wo : WeightOps W) (f : Fst W)
    (hv : ValidFst f = true) :
    (∀ s, s < numStates f →
      (s ∈ keepStates wo f ↔ Accessible f s ∧ Coaccessible wo f s)) ∧
    (numStates (Connect wo f) = (keepStates wo f).length) ∧
    (∀ i, (hi : i < (keepStates wo f).length) →
      (Connect wo f).finals.get? i =
        some (f.finals.getD ((keepStates wo f).get ⟨i, hi⟩) wo.zero)) ∧
    (∀ i, ∀ a ∈ (Connect wo f).arcs.getD i [],
      ∃ (hi : i < (keepStates wo f).length)
        (hj : a.nextstate < (keepStates wo f).length),
        Accessible f ((keepStates wo f).get ⟨i, hi⟩) ∧
        Coaccessible wo f ((keepStates wo f).get ⟨a.nextstate, hj⟩) ∧
        ∃ a0 ∈ f.arcs.getD ((keepStates wo f).get ⟨i, hi⟩) [],
          a0.ilabel = a.ilabel ∧ a0.olabel = a.olabel ∧
          a0.weight = a.weight ∧
          a0.nextstate = (keepStates wo f).get ⟨a.nextstate, hj⟩) := by
  refine ⟨?_, ?_, ?_, ?_⟩
  · intro s hs
    rw [mem_keepStates_iff wo hv]
    tauto
  · simp [Connect, deleteStatesKeeping, numStates]
  · intro i hi
    have hf : (Connect wo f).finals =
        (keepStates wo f).map (fun s => f.finals.getD s wo.zero) := rfl
    rw [hf, List.get?_map, List.get?_eq_get hi]
    rfl
  · intro i a ha
    by_cases hi : i < (keepStates wo f).length
    · have hgetD : (Connect wo f).arcs.getD i [] =
          (f.arcs.getD ((keepStates wo f).get ⟨i, hi⟩) []).filterMap
            (fun a0 => (renumber (keepStates wo f) a0.nextstate).map
              (fun t => { a0 with nextstate := t })) := by
        show (((keepStates wo f).map _).getD i []) = _
        rw [List.getD_eq_getElem?_getD, List.getElem?_map,
            List.getElem?_eq_getElem hi]
        rfl
      rw [hgetD] at ha
      obtain ⟨a0, ha0, hmap⟩ := List.mem_filterMap.mp ha
      cases hr : renumber (keepStates wo f) a0.nextstate with
      | none => rw [hr] at hmap; cases hmap
      | some j =>
          rw [hr] at hmap
          injection hmap with hja
          subst hja
          obtain ⟨hj, hget⟩ := renumber_some_spec (keepStates wo f) a0.nextstate j hr
          have hksrc := (mem_keepStates_iff wo hv ((keepStates wo f).get ⟨i, hi⟩)).mp
            (List.get_mem (keepStates wo f) i hi)
          have hktgt := (mem_keepStates_iff wo hv ((keepStates wo f).get ⟨j, hj⟩)).mp
            (List.get_mem (keepStates wo f) j hj)
          exact ⟨hi, hj, hksrc.2.1, hktgt.2.2, a0, ha0, rfl, rfl, rfl, hget.symm⟩
    · exfalso
      have hlen : (Connect wo f).arcs.length = (keepStates wo f).length := by
        simp [Connect, deleteStatesKeeping]
      have hnil : (Connect wo f).arcs.getD i [] = [] := by
        rw [List.getD_eq_getElem?_getD, List.getElem?_eq_none (by omega)]
        rfl
      rw [hnil] at ha
      cases ha

/-- C8 witness: the theorem at a concrete four-state automaton with a
dead-end branch. -/
theorem Connect_trims_witness :
    ValidFst fstDeadBranch = true ∧
    ((∀ s, s < numStates fstDeadBranch →
      (s ∈ keepStates natOps fstDeadBranch ↔
        Accessible fstDeadBranch s ∧ Coaccessible natOps fstDeadBranch s)) ∧
    (numStates (Connect natOps fstDeadBranch) =
      (keepStates natOps fstDeadBranch).length) ∧
    (∀ i, (hi : i < (keepStates natOps fstDeadBranch).length) →
      (Connect natOps fstDeadBranch).finals.get? i =
        some (fstDeadBranch.finals.getD
          ((keepStates natOps fstDeadBranch).get ⟨i, hi⟩) natOps.zero)) ∧
    (∀ i, ∀ a ∈ (Connect natOps fstDeadBranch).arcs.getD i [],
      ∃ (hi : i < (keepStates natOps fstDeadBranch).length)
        (hj : a.nextstate < (keepStates natOps fstDeadBranch).length),
        Accessible fstDeadBranch
          ((keepStates natOps fstDeadBranch).get ⟨i, hi⟩) ∧
        Coaccessible natOps fstDeadBranch
          ((keepStates natOps fstDeadBranch).get ⟨a.nextstate, hj⟩) ∧
        ∃ a0 ∈ fstDeadBranch.arcs.getD
            ((keepStates natOps fstDeadBranch).get ⟨i, hi⟩) [],
          a0.ilabel = a.ilabel ∧ a0.olabel = a.olabel ∧
          a0.weight = a.weight ∧
          a0.nextstate = (keepStates natOps fstDeadBranch).get
            ⟨a.nextstate, hj⟩)) :=
  ⟨by decide, Connect_trims natOps fstDeadBranch (by decide)⟩

end OpenFst
